import Mathlib

/-!
Shallow embedding of the gesture-recognition and dispatch pipeline
(`src/utils/gesture_dispatcher.py`, `src/modules/gesture.py`, `src/app.py`)
together with theorems settling the specification claims about it.

Python dictionaries are modelled as insertion-ordered association lists,
Python `float` times as rationals, and millisecond timestamps as integers.
-/

/-- Association-list lookup, modelling Python `dict.get(k)` / `k in d`. -/
def lookupA {α β : Type} [DecidableEq α] : List (α × β) → α → Option β
  | [], _ => none
  | (k, v) :: t, a => if k = a then some v else lookupA t a

/-- Association-list assignment, modelling Python `d[k] = v`: replaces the
value in place when the key is present, appends a new binding otherwise. -/
def setA {α β : Type} [DecidableEq α] : List (α × β) → α → β → List (α × β)
  | [], a, b => [(a, b)]
  | (k, v) :: t, a, b => if k = a then (k, b) :: t else (k, v) :: setA t a b

/-- Key list of an association list, modelling Python `list(d.keys())`. -/
def keysOf {α β : Type} (l : List (α × β)) : List α := l.map Prod.fst

/-- State of `GestureDispatcher` (`src/utils/gesture_dispatcher.py`):
the injected action registry `_gesture_actions` (keyed by gesture id, valued
by the action's name), the cooldown in seconds, and `_last_run`, the table of
last accepted dispatch times per gesture key. -/
structure GestureDispatcher where
  gesture_actions : List (Int × String)
  cooldown : ℚ
  last_run : List (Int × ℚ)

/-- The registry built by `build_gesture_actions` in
`src/utils/gesture_dispatcher.py`: 5 ↦ StandUp, 6 ↦ StandDown, 4 ↦ Hello. -/
def build_gesture_actions : List (Int × String) :=
  [(5, "StandUp"), (6, "StandDown"), (4, "Hello")]

/-- A freshly constructed dispatcher: `_last_run` starts empty. -/
def GestureDispatcher.init (actions : List (Int × String)) (cooldown : ℚ) :
    GestureDispatcher :=
  ⟨actions, cooldown, []⟩

/-- `GestureDispatcher.process` (`src/utils/gesture_dispatcher.py`, lines
20-31), with the current wall-clock time `now` passed explicitly.  Returns
the updated dispatcher state and the launched action, if any:
unregistered gesture → no-op; `last = _last_run.get(gesture, 0.0)`;
`now - last < cooldown` → dropped; otherwise `_last_run[gesture] = now`
and the action is launched in a fresh thread. -/
def GestureDispatcher.process (d : GestureDispatcher) (gesture : Int)
    (now : ℚ) : GestureDispatcher × Option String :=
  match lookupA d.gesture_actions gesture with
  | none => (d, none)
  | some action =>
    let last : ℚ := (lookupA d.last_run gesture).getD 0
    if now - last < d.cooldown then (d, none)
    else ({ d with last_run := setA d.last_run gesture now }, some action)

/-- Runs a sequence of `process` calls for one gesture key at the given
times, collecting the times at which the bound action was launched. -/
def GestureDispatcher.runKey (d : GestureDispatcher) (k : Int) :
    List ℚ → GestureDispatcher × List ℚ
  | [] => (d, [])
  | t :: ts =>
    let p := d.process k t
    let r := p.1.runKey k ts
    (r.1, (match p.2 with | some _ => [t] | none => []) ++ r.2)

theorem lookupA_setA_self {α β : Type} [DecidableEq α]
    (l : List (α × β)) (k : α) (v : β) : lookupA (setA l k v) k = some v := by
  induction l with
  | nil => simp [setA, lookupA]
  | cons p t ih =>
    by_cases h : p.1 = k
    · simp [setA, lookupA, h]
    · simp [setA, lookupA, h, ih]

theorem runKey_all_dropped (A : List (Int × String)) (k : Int) (C t1 : ℚ)
    (ts : List ℚ) (hts : ∀ t ∈ ts, t < t1 + C) :
    (GestureDispatcher.runKey ⟨A, C, [(k, t1)]⟩ k ts).2 = [] := by
  induction ts with
  | nil => simp [GestureDispatcher.runKey]
  | cons t ts ih =>
    have ht : t < t1 + C := hts t (by simp)
    have hdrop : t - t1 < C := by linarith
    cases hA : lookupA A k with
    | none =>
      simp only [GestureDispatcher.runKey, GestureDispatcher.process, hA]
      exact ih (fun u hu => hts u (by simp [hu]))
    | some a =>
      have hlk : lookupA [(k, t1)] k = some t1 := by simp [lookupA]
      simp only [GestureDispatcher.runKey, GestureDispatcher.process, hA, hlk,
        Option.getD_some, if_pos hdrop, List.nil_append]
      exact ih (fun u hu => hts u (by simp [hu]))

/-- Claim C1 (amended): for a registered gesture key `k`, a sequence of
`process` calls at times `t1 :: ts` all inside the window `[t1, t1 + C)`,
starting from a freshly constructed dispatcher, launches the bound action
exactly once, at `t1` — provided `C ≤ t1`, since the code treats a key
absent from `_last_run` as last run at time `0.0`, so the first call is
accepted only when the clock value itself is at least the cooldown. -/
theorem debounce_window_single_fire (A : List (Int × String)) (k : Int)
    (C t1 : ℚ) (ts : List ℚ) (hreg : (lookupA A k).isSome)
    (hfirst : C ≤ t1) (hts : ∀ t ∈ ts, t1 ≤ t ∧ t < t1 + C) :
    ((GestureDispatcher.init A C).runKey k (t1 :: ts)).2 = [t1] := by
  obtain ⟨a, ha⟩ := Option.isSome_iff_exists.mp hreg
  have hfire : ¬ (t1 - (0 : ℚ) < C) := by linarith
  simp only [GestureDispatcher.runKey, GestureDispatcher.init,
    GestureDispatcher.process, ha, lookupA, Option.getD_none, if_neg hfire]
  simp only [setA]
  rw [runKey_all_dropped A k C t1 ts (fun t ht => (hts t ht).2)]
  simp

/-- Witness for `debounce_window_single_fire` at the concrete registry,
key 5, cooldown 2, and call times 2, 3, hitting every hypothesis. -/
theorem debounce_window_single_fire_witness :
    ((GestureDispatcher.init build_gesture_actions 2).runKey 5 [2, 3]).2
      = [2] :=
  debounce_window_single_fire build_gesture_actions 5 2 2 [3]
    (by decide) (by norm_num) (by norm_num)

/-- Claim C1 (counterexample to the claim as stated): key 5 is registered,
yet the very first `process(5)` call, at clock value 1 with cooldown 2,
launches nothing — the action does not fire at `t1`, because the absent-key
default last-run time is `0.0`, not minus infinity. -/
theorem debounce_first_call_subcooldown_clock_drops :
    (lookupA build_gesture_actions 5).isSome = true ∧
    ((GestureDispatcher.init build_gesture_actions 2).runKey 5 [1]).2 = [] := by
  constructor
  · decide
  · norm_num [GestureDispatcher.runKey, GestureDispatcher.init,
      GestureDispatcher.process, build_gesture_actions, lookupA]

/-- Claim C4 (amended): for a registered key, `process` launches the action
exactly when `cooldown ≤ now - last`, where `last` is the key's `_last_run`
entry and an absent key defaults to `0.0` (not infinity); consequently a
call at `t1 + C + ε`, `0 ≤ ε`, after an accepted trigger at `t1` fires
again, and the first call ever made for a registered key fires iff the
current clock value is at least `C`. -/
theorem cooldown_rearm_and_absent_default_zero (A : List (Int × String))
    (k : Int) (C : ℚ) (hreg : (lookupA A k).isSome) :
    (∀ (st : List (Int × ℚ)) (now : ℚ),
      (((⟨A, C, st⟩ : GestureDispatcher).process k now).2.isSome ↔
        C ≤ now - (lookupA st k).getD 0)) ∧
    (∀ (st : List (Int × ℚ)) (t1 ε : ℚ), 0 ≤ ε →
      (((⟨A, C, st⟩ : GestureDispatcher).process k t1).2.isSome →
      (((⟨A, C, st⟩ : GestureDispatcher).process k t1).1.process k
          (t1 + C + ε)).2.isSome)) := by
  obtain ⟨a, ha⟩ := Option.isSome_iff_exists.mp hreg
  constructor
  · intro st now
    simp only [GestureDispatcher.process, ha]
    by_cases h : now - (lookupA st k).getD 0 < C
    · simp [h]
    · simp [h]
      linarith
  · intro st t1 ε hε hacc
    by_cases hfire : t1 - (lookupA st k).getD 0 < C
    · exfalso
      simp [GestureDispatcher.process, ha, hfire] at hacc
    · have hrearm : ¬ (t1 + C + ε - t1 < C) := by linarith
      simp only [GestureDispatcher.process, ha, if_neg hfire,
        lookupA_setA_self, Option.getD_some, if_neg hrearm]
      simp

/-- Witness for `cooldown_rearm_and_absent_default_zero` at the concrete
registry, key 5, cooldown 2: the first-call criterion evaluated at clock 3,
and the re-arm disjunction at `t1 = 2`, `ε = 1`. -/
theorem cooldown_rearm_and_absent_default_zero_witness :
    ((((⟨build_gesture_actions, 2, []⟩ : GestureDispatcher).process 5
        3).2.isSome ↔ (2 : ℚ) ≤ 3 - (lookupA ([] : List (Int × ℚ)) 5).getD 0))
    ∧ (((⟨build_gesture_actions, 2, []⟩ : GestureDispatcher).process 5
          2).1.process 5 (2 + 2 + 1)).2.isSome :=
  ⟨(cooldown_rearm_and_absent_default_zero build_gesture_actions 5 2
      (by decide)).1 [] 3,
   (cooldown_rearm_and_absent_default_zero build_gesture_actions 5 2
      (by decide)).2 [] 2 1 (by norm_num)
      (by norm_num [GestureDispatcher.process, build_gesture_actions, lookupA])⟩

/-- Claim C4 (counterexample to the claim as stated): the first
`process(5)` call ever made, at clock value 1 with cooldown 2, does not
launch the action, refuting "the first call always fires regardless of the
current clock value". -/
theorem first_call_not_always_fire :
    ((GestureDispatcher.init build_gesture_actions 2).process 5 1).2
      = none := by
  norm_num [GestureDispatcher.init, GestureDispatcher.process,
    build_gesture_actions, lookupA]

/-- State of `GestureRecognizer` (`src/modules/gesture.py`): the shared
`hand_gestures_dict` and the last wall-clock timestamp stored by
`detect_gesture` (`self.timestamp`, milliseconds). -/
structure RecognizerState where
  hand_gestures_dict : List (String × String)
  timestamp : Int

/-- The dictionary built in `GestureRecognizer.__init__` (lines 14-17):
both hands mapped to "None". -/
def initHandGesturesDict : List (String × String) :=
  [("Left", "None"), ("Right", "None")]

/-- The zero-hands branch of `detect_gesture` (lines 62-64): resets both
entries to "None". -/
def resetHands (st : List (String × String)) : List (String × String) :=
  setA (setA st "Left" "None") "Right" "None"

/-- The per-frame body of `GestureRecognizer.detect_gesture`
(`src/modules/gesture.py`, lines 43-65), abstracted over whether the
synchronous hand detector found hands and over the wall clock in
milliseconds.  When hands are detected the code sets
`self.timestamp = int(time.time() * 1000)` and calls
`recognize_async(mp_image, self.timestamp)` — the returned option is the
timestamp passed to that submission; no clamping against the previous
submission is performed.  With zero hands, both dictionary entries are
reset to "None" and nothing is submitted. -/
def detect_gesture (s : RecognizerState) (handsDetected : Bool)
    (clock_ms : Int) : RecognizerState × Option Int :=
  if handsDetected then
    ({ s with timestamp := clock_ms }, some clock_ms)
  else
    ({ s with hand_gestures_dict := resetHands s.hand_gestures_dict }, none)

/-- Result delivered to `results_callback`: `handedness` and `gestures` are
lists (one entry per hand) of category lists, each category reduced to its
`category_name` string. -/
structure RecResult where
  handedness : List (List String)
  gestures : List (List String)

/-- Python list indexing `l[i]` as a fallible operation: raises
(`Except.error`) on an out-of-range index. -/
def pyIndex {α : Type} (l : List α) (i : ℕ) : Except Unit α :=
  match l[i]? with
  | some a => Except.ok a
  | none => Except.error ()

/-- Python `try: ... except: fallback`. -/
def pyTry {α : Type} (e : Except Unit α) (fallback : Except Unit α) :
    Except Unit α :=
  match e with
  | Except.ok a => Except.ok a
  | Except.error _ => fallback

/-- The handedness-correction expression of `results_callback`
(`src/modules/gesture.py`, lines 82-85):
`"Right" if hand_name == "Left" else "Left"` when `flip_results` is set,
the raw name unchanged otherwise. -/
def correctedHandName (flip : Bool) (hand_name : String) : String :=
  if flip then (if hand_name = "Left" then "Right" else "Left")
  else hand_name

/-- The guarded access `hand[0].category_name` with its `except` fallback
(lines 74-77): the first category's name, or "Unknown" when absent. -/
def resolveHandName (hand : List String) : String :=
  hand.head?.getD "Unknown"

/-- The guarded access `result.gestures[index][0].category_name` with its
`except` fallback (lines 78-81). -/
def resolveGesture (gestures : List (List String)) (index : ℕ) : String :=
  ((gestures[index]?).bind List.head?).getD "Unknown"

/-- One iteration of the `for index, hand in enumerate(result.handedness)`
loop body of `results_callback` (lines 72-90): resolve the labels, correct
the handedness, and assign `hand_gestures_dict[corrected] = gesture`. -/
def processHand (flip : Bool) (gestures : List (List String))
    (st : List (String × String)) (index : ℕ) (hand : List String) :
    List (String × String) :=
  setA st (correctedHandName flip (resolveHandName hand))
    (resolveGesture gestures index)

/-- Fold with an index, modelling Python's `for index, x in enumerate(l)`. -/
def foldIdx {α σ : Type} (f : σ → ℕ → α → σ) : σ → ℕ → List α → σ
  | s, _, [] => s
  | s, i, a :: t => foldIdx f (f s i a) (i + 1) t

/-- `GestureRecognizer.results_callback` (`src/modules/gesture.py`, lines
67-92) as a pure state transformer on `hand_gestures_dict`:
`if not result or not any(result.gestures): return`, then the enumerate
loop over `result.handedness`, with the two `try/except` accesses already
resolved to their "Unknown" fallbacks. -/
def results_callback (flip : Bool) (st : List (String × String))
    (result : Option RecResult) : List (String × String) :=
  match result with
  | none => st
  | some r =>
    if r.gestures.any (fun g => !g.isEmpty) then
      foldIdx (fun s i hand => processHand flip r.gestures s i hand)
        st 0 r.handedness
    else st

/-- Indexed fold in the exception monad: an uncaught exception in any
iteration aborts the loop and propagates. -/
def foldIdxE {α σ : Type} (f : σ → ℕ → α → Except Unit σ) :
    σ → ℕ → List α → Except Unit σ
  | s, _, [] => Except.ok s
  | s, i, a :: t =>
    match f s i a with
    | Except.ok s' => foldIdxE f s' (i + 1) t
    | Except.error e => Except.error e

/-- One loop iteration of `results_callback` with the raising accesses
explicit: `hand[0]` and `result.gestures[index][0]` may raise, and each is
wrapped in exactly the `try/except` the source has. -/
def processHandE (flip : Bool) (gestures : List (List String))
    (st : List (String × String)) (index : ℕ) (hand : List String) :
    Except Unit (List (String × String)) :=
  match pyTry (pyIndex hand 0) (Except.ok "Unknown") with
  | Except.error e => Except.error e
  | Except.ok hand_name =>
    match pyTry
        (match pyIndex gestures index with
         | Except.ok gi => pyIndex gi 0
         | Except.error e => Except.error e)
        (Except.ok "Unknown") with
    | Except.error e => Except.error e
    | Except.ok cur =>
      Except.ok (setA st (correctedHandName flip hand_name) cur)

/-- `results_callback` in the exception monad: raises whatever its body
raises outside a `try` block. -/
def results_callbackE (flip : Bool) (st : List (String × String))
    (result : Option RecResult) : Except Unit (List (String × String)) :=
  match result with
  | none => Except.ok st
  | some r =>
    if r.gestures.any (fun g => !g.isEmpty) then
      foldIdxE (fun s i hand => processHandE flip r.gestures s i hand)
        st 0 r.handedness
    else Except.ok st

theorem mem_keysOf_setA {α β : Type} [DecidableEq α] (l : List (α × β))
    (k k' : α) (v : β) (h : k' ∈ keysOf l) : k' ∈ keysOf (setA l k v) := by
  induction l with
  | nil => simp [keysOf] at h
  | cons p t ih =>
    obtain ⟨a, b⟩ := p
    simp only [setA]
    by_cases hp : a = k
    · rw [if_pos hp]
      simpa [keysOf] using h
    · rw [if_neg hp]
      simp only [keysOf, List.map_cons, List.mem_cons] at h ⊢
      rcases h with h | h
      · exact Or.inl h
      · exact Or.inr (ih h)

theorem mem_keysOf_setA_self {α β : Type} [DecidableEq α]
    (l : List (α × β)) (k : α) (v : β) : k ∈ keysOf (setA l k v) := by
  induction l with
  | nil => simp [setA, keysOf]
  | cons p t ih =>
    obtain ⟨a, b⟩ := p
    simp only [setA]
    by_cases hp : a = k
    · rw [if_pos hp]
      simp [keysOf, hp]
    · rw [if_neg hp]
      simp only [keysOf, List.map_cons, List.mem_cons]
      exact Or.inr ih

theorem keysOf_setA_of_mem {α β : Type} [DecidableEq α] (l : List (α × β))
    (k : α) (v : β) (h : k ∈ keysOf l) : keysOf (setA l k v) = keysOf l := by
  induction l with
  | nil => simp [keysOf] at h
  | cons p t ih =>
    obtain ⟨a, b⟩ := p
    simp only [setA]
    by_cases hp : a = k
    · rw [if_pos hp]
      simp [keysOf]
    · rw [if_neg hp]
      simp only [keysOf, List.map_cons, List.mem_cons] at h
      rcases h with h | h
      · exact absurd h.symm hp
      · simp only [keysOf, List.map_cons]
        have ht : List.map Prod.fst (setA t k v) = List.map Prod.fst t := ih h
        rw [ht]

/-- Claim C3 (counterexample to the claim as stated): two successive
hand-detected frames with the wall clock stuck at millisecond 100 both
submit timestamp 100 — the later submission is not strictly greater than
the earlier one, so no clamping to `max(now, last_submitted + 1)` is
performed by the submission path. -/
theorem submission_timestamp_not_strictly_monotonic :
    ((detect_gesture ⟨initHandGesturesDict, 99⟩ true 100).2 = some 100) ∧
    ((detect_gesture (detect_gesture ⟨initHandGesturesDict, 99⟩ true
        100).1 true 100).2 = some 100) ∧
    ¬ ((100 : Int) < 100) :=
  ⟨rfl, rfl, by norm_num⟩

/-- Claim C3 (amended): the timestamp submitted by `detect_gesture` on a
hand-detected frame is exactly the wall clock in milliseconds at that call
(`int(time.time() * 1000)`), with no clamping state; hence successive
submissions carry strictly increasing timestamps precisely when the wall
clock strictly advances between them. -/
theorem submission_timestamp_equals_wall_clock :
    (∀ (s : RecognizerState) (c : Int),
      (detect_gesture s true c).2 = some c ∧
      (detect_gesture s true c).1.timestamp = c) ∧
    (∀ (s : RecognizerState) (c1 c2 : Int), c1 < c2 →
      ∃ t1 t2 : Int, (detect_gesture s true c1).2 = some t1 ∧
        (detect_gesture (detect_gesture s true c1).1 true c2).2 = some t2 ∧
        t1 < t2) := by
  constructor
  · intro s c
    exact ⟨rfl, rfl⟩
  · intro s c1 c2 h
    exact ⟨c1, c2, rfl, rfl, h⟩

/-- Witness for `submission_timestamp_equals_wall_clock`: the wall clock
advances from 100 to 101, so two strictly increasing timestamps are
submitted. -/
theorem submission_timestamp_equals_wall_clock_witness :
    ∃ t1 t2 : Int,
      (detect_gesture ⟨initHandGesturesDict, 0⟩ true 100).2 = some t1 ∧
      (detect_gesture (detect_gesture ⟨initHandGesturesDict, 0⟩ true
        100).1 true 101).2 = some t2 ∧ t1 < t2 :=
  submission_timestamp_equals_wall_clock.2 ⟨initHandGesturesDict, 0⟩ 100 101
    (by norm_num)

theorem mem_keysOf_foldIdx (flip : Bool) (g : List (List String))
    (k' : String) :
    ∀ (hands : List (List String)) (st : List (String × String)) (i : ℕ),
      k' ∈ keysOf st →
      k' ∈ keysOf (foldIdx (fun s i hand => processHand flip g s i hand)
        st i hands) := by
  intro hands
  induction hands with
  | nil =>
    intro st i h
    simpa [foldIdx] using h
  | cons a t ih =>
    intro st i h
    simp only [foldIdx]
    exact ih _ _ (mem_keysOf_setA _ _ _ _ h)

theorem correctedHandName_true_mem (s : String) :
    correctedHandName true s = "Left" ∨ correctedHandName true s = "Right" := by
  by_cases hs : s = "Left" <;> simp [correctedHandName, hs]

theorem keysOf_foldIdx_flip (g : List (List String)) :
    ∀ (hands : List (List String)) (st : List (String × String)) (i : ℕ),
      "Left" ∈ keysOf st → "Right" ∈ keysOf st →
      keysOf (foldIdx (fun s i hand => processHand true g s i hand)
        st i hands) = keysOf st := by
  intro hands
  induction hands with
  | nil =>
    intro st i _ _
    simp [foldIdx]
  | cons a t ih =>
    intro st i hL hR
    simp only [foldIdx]
    have hmem : correctedHandName true (resolveHandName a) ∈ keysOf st := by
      rcases correctedHandName_true_mem (resolveHandName a) with h | h
      · rw [h]; exact hL
      · rw [h]; exact hR
    have hkeys : keysOf (processHand true g st i a) = keysOf st := by
      simpa [processHand] using keysOf_setA_of_mem st _ _ hmem
    rw [ih (processHand true g st i a) (i + 1) (by rw [hkeys]; exact hL)
      (by rw [hkeys]; exact hR), hkeys]

/-- Claim C7 (counterexample to the claim as stated): with the flip flag
unset, a result whose single hand has an empty category list is coerced to
the "Unknown" handedness label and written under a new key "Unknown", so
the shared dictionary's key set is no longer exactly {Left, Right}. -/
theorem shared_state_extra_key_counterexample :
    keysOf (results_callback false initHandGesturesDict
        (some ⟨[[]], [["Grip"]]⟩)) = ["Left", "Right", "Unknown"] ∧
    ("Unknown" : String) ≠ "Left" ∧ ("Unknown" : String) ≠ "Right" :=
  ⟨rfl, by decide, by decide⟩

/-- Claim C7 (amended): SharedGestureState is initialised with key list
exactly [Left, Right]; the zero-hands reset keeps both keys present; every
`results_callback` write preserves existing keys (no key is ever removed);
and with the flip flag SET the key set is exactly preserved, since every
corrected label is Left or Right.  With the flip flag unset, however, a
hand whose raw label falls outside {Left, Right} — e.g. the coerced
"Unknown" sentinel — adds a new key, so the key set is not invariant for
that setting. -/
theorem shared_state_keys_amended :
    (keysOf initHandGesturesDict = ["Left", "Right"]) ∧
    (∀ st, "Left" ∈ keysOf (resetHands st) ∧
      "Right" ∈ keysOf (resetHands st)) ∧
    (∀ (flip : Bool) (st : List (String × String)) (r : Option RecResult)
      (k : String), k ∈ keysOf st → k ∈ keysOf (results_callback flip st r)) ∧
    (∀ (st : List (String × String)) (r : Option RecResult),
      "Left" ∈ keysOf st → "Right" ∈ keysOf st →
      keysOf (results_callback true st r) = keysOf st) := by
  refine ⟨rfl, ?_, ?_, ?_⟩
  · intro st
    exact ⟨mem_keysOf_setA _ _ _ _ (mem_keysOf_setA_self st "Left" "None"),
      mem_keysOf_setA_self _ "Right" "None"⟩
  · intro flip st r k h
    cases r with
    | none => exact h
    | some r =>
      simp only [results_callback]
      by_cases hg : r.gestures.any (fun g => !g.isEmpty)
      · simp only [if_pos hg]
        exact mem_keysOf_foldIdx flip r.gestures k r.handedness st 0 h
      · simpa [hg] using h
  · intro st r hL hR
    cases r with
    | none => rfl
    | some r =>
      simp only [results_callback]
      by_cases hg : r.gestures.any (fun g => !g.isEmpty)
      · simp only [if_pos hg]
        exact keysOf_foldIdx_flip r.gestures r.handedness st 0 hL hR
      · simp [hg]

/-- Witness for `shared_state_keys_amended`: from the initial dictionary,
a flip-enabled callback write for a misaligned result keeps the key set
exactly [Left, Right], and "Left" stays present for a flip-disabled one. -/
theorem shared_state_keys_amended_witness :
    keysOf (results_callback true initHandGesturesDict
        (some ⟨[[]], [["Grip"]]⟩)) = keysOf initHandGesturesDict ∧
    "Left" ∈ keysOf (results_callback false initHandGesturesDict
        (some ⟨[[]], [["Grip"]]⟩)) :=
  ⟨shared_state_keys_amended.2.2.2 initHandGesturesDict
      (some ⟨[[]], [["Grip"]]⟩)
      (by simp [initHandGesturesDict, keysOf])
      (by simp [initHandGesturesDict, keysOf]),
   shared_state_keys_amended.2.2.1 false initHandGesturesDict
      (some ⟨[[]], [["Grip"]]⟩) "Left"
      (by simp [initHandGesturesDict, keysOf])⟩

theorem processHandE_ok (flip : Bool) (g : List (List String))
    (st : List (String × String)) (i : ℕ) (hand : List String) :
    processHandE flip g st i hand =
      Except.ok (processHand flip g st i hand) := by
  have hhand : pyTry (pyIndex hand 0) (Except.ok "Unknown") =
      Except.ok (resolveHandName hand) := by
    cases hand <;> simp [pyTry, pyIndex, resolveHandName]
  have hgest : pyTry
      (match pyIndex g i with
       | Except.ok gi => pyIndex gi 0
       | Except.error e => Except.error e)
      (Except.ok "Unknown") = Except.ok (resolveGesture g i) := by
    cases hgi : g[i]? with
    | none => simp [pyTry, pyIndex, resolveGesture, hgi]
    | some gi => cases gi <;> simp [pyTry, pyIndex, resolveGesture, hgi]
  simp [processHandE, hhand, hgest, processHand]

theorem foldIdxE_ok {α σ : Type} (f : σ → ℕ → α → σ)
    (fE : σ → ℕ → α → Except Unit σ)
    (hf : ∀ s i a, fE s i a = Except.ok (f s i a)) :
    ∀ (l : List α) (s : σ) (i : ℕ),
      foldIdxE fE s i l = Except.ok (foldIdx f s i l) := by
  intro l
  induction l with
  | nil =>
    intro s i
    simp [foldIdxE, foldIdx]
  | cons a t ih =>
    intro s i
    simp [foldIdxE, foldIdx, hf, ih]

/-- Claim C8: `results_callback` never raises to its caller: for every
optional result (including empty results, misaligned handedness/gesture
arrays, and per-hand entries of unexpected shape), every dictionary state
and either flip setting, the exception-explicit embedding returns `ok`,
and its value is the pure embedding, in which an unresolvable per-hand
handedness or gesture label is coerced to the "Unknown" sentinel. -/
theorem results_callback_never_raises (flip : Bool)
    (st : List (String × String)) (result : Option RecResult) :
    results_callbackE flip st result =
      Except.ok (results_callback flip st result) := by
  cases result with
  | none => rfl
  | some r =>
    simp only [results_callbackE, results_callback]
    by_cases h : r.gestures.any (fun g => !g.isEmpty)
    · simp only [if_pos h]
      exact foldIdxE_ok _ _
        (fun s i a => processHandE_ok flip r.gestures s i a)
        r.handedness st 0
    · simp [h]

/-- Claim C9: with the flip flag set, a raw handedness label "Left" makes
the write target key "Right" and a raw "Right" targets "Left"; with the
flip flag unset the raw label is used unchanged as the storage key. -/
theorem handedness_flip_mapping :
    correctedHandName true "Left" = "Right" ∧
    correctedHandName true "Right" = "Left" ∧
    (∀ s : String, correctedHandName false s = s) ∧
    (∀ (g : List (List String)) (st : List (String × String)) (i : ℕ)
      (rest : List String),
      processHand true g st i ("Left" :: rest) =
        setA st "Right" (resolveGesture g i) ∧
      processHand true g st i ("Right" :: rest) =
        setA st "Left" (resolveGesture g i)) := by
  refine ⟨rfl, by simp [correctedHandName], fun s => rfl, ?_⟩
  intro g st i rest
  constructor <;> simp [processHand, resolveHandName, correctedHandName]

/-- Claim C10: with the flip flag set, every raw handedness label other
than "Left" — including the coerced "Unknown" sentinel arising from an
unresolvable hand — is mapped to the corrected label "Left" (so such a
hand overwrites the Left entry of the shared state), and only the raw
label "Left" is mapped to "Right". -/
theorem flip_maps_nonleft_to_left :
    (∀ s : String, s ≠ "Left" → correctedHandName true s = "Left") ∧
    correctedHandName true "Left" = "Right" ∧
    (∀ (g : List (List String)) (st : List (String × String)) (i : ℕ),
      processHand true g st i [] = setA st "Left" (resolveGesture g i)) := by
  refine ⟨fun s hs => by simp [correctedHandName, hs], rfl, ?_⟩
  intro g st i
  simp [processHand, resolveHandName, correctedHandName]

/-- Witness for `flip_maps_nonleft_to_left`: the coerced sentinel label
"Unknown" is indeed mapped to "Left" under the flip flag. -/
theorem flip_maps_nonleft_to_left_witness :
    correctedHandName true "Unknown" = "Left" :=
  flip_maps_nonleft_to_left.1 "Unknown" (by decide)

/-- Python `deque(maxlen=n).append(x)`: appends on the right and evicts the
oldest entries on the left once the capacity is exceeded. -/
def dequeAppend {α : Type} (maxlen : ℕ) (q : List α) (x : α) : List α :=
  if maxlen < (q ++ [x]).length then
    (q ++ [x]).drop ((q ++ [x]).length - maxlen)
  else q ++ [x]

/-- Python `==` between an `int` and a `str`: values of different types
compare unequal, so the expression is always `False` (no error). -/
def pyIntEqStr (_n : Int) (_s : String) : Bool := false

/-- The point-history append step of `main` (`src/app.py`, lines 225-231):
`if hand_sign_id == "Change to pointer id in the future":
point_history.append(landmark_list[8]) else: point_history.append([0, 0])`.
`hand_sign_id` is the integer returned by `keypoint_classifier`, so the
condition compares an `int` with a `str` and is always `False` in Python;
`point_history = deque(maxlen=history_length)` with `history_length = 16`. -/
def pointHistoryStep (hand_sign_id : Int) (landmark_list : List (Int × Int))
    (point_history : List (Int × Int)) : List (Int × Int) :=
  if pyIntEqStr hand_sign_id "Change to pointer id in the future" then
    dequeAppend 16 point_history ((landmark_list[8]?).getD (0, 0))
  else
    dequeAppend 16 point_history (0, 0)

/-- Claim C2 (code-bug evidence): whatever pose id the synchronous
classifier reports — the pointing pose included — the sentinel `(0, 0)` is
appended to PointHistory and the fingertip landmark (index 8) never is,
because the pointing check compares the integer `hand_sign_id` with a
placeholder string, which is always `False` in Python; evaluated at the
failing input (pose id 2, fingertip `(100, 200)`, empty history) the
appended entry is the sentinel, not the fingertip. -/
theorem point_history_always_sentinel :
    (∀ (id : Int) (lm hist : List (Int × Int)),
      pointHistoryStep id lm hist = dequeAppend 16 hist (0, 0)) ∧
    pointHistoryStep 2
      (List.replicate 8 ((0 : Int), (0 : Int)) ++ [(100, 200)]) []
      = [(0, 0)] :=
  ⟨fun _ _ _ => rfl, rfl⟩

/-- The finger-gesture classification gate of `main` (`src/app.py`, lines
233-239): `finger_gesture_id = 0`, then `point_history_classifier` is
invoked — and its output is taken as the per-frame id — only when the
flattened pre-processed history has exactly `history_length * 2` scalars.
The Bool in the result records whether the classifier was invoked. -/
def fingerGestureStep (classify : List ℚ → Int) (history_length : ℕ)
    (pre_processed_point_history_list : List ℚ) : Int × Bool :=
  if pre_processed_point_history_list.length = history_length * 2 then
    (classify pre_processed_point_history_list, true)
  else (0, false)

/-- Claim C6: with capacity 16 (`history_length` in app.py), a flattened
pre-processed point-history vector of fewer than 32 scalars yields the
neutral trajectory id 0 with the trajectory classifier not invoked; at
exactly 32 scalars the classifier is invoked and its output becomes the
per-frame id. -/
theorem trajectory_gating (classify : List ℚ → Int) (v : List ℚ) :
    (v.length < 16 * 2 → fingerGestureStep classify 16 v = (0, false)) ∧
    (v.length = 16 * 2 →
      fingerGestureStep classify 16 v = (classify v, true)) := by
  constructor
  · intro h
    have hne : v.length ≠ 16 * 2 := by omega
    simp [fingerGestureStep, hne]
  · intro h
    simp [fingerGestureStep, h]

/-- Witness for `trajectory_gating`: a 3-scalar vector is below the gate
and yields `(0, false)`; a 32-scalar vector meets it and the classifier's
output 7 becomes the id. -/
theorem trajectory_gating_witness :
    ((List.replicate 3 (0 : ℚ)).length < 16 * 2 ∧
      fingerGestureStep (fun _ => 7) 16 (List.replicate 3 (0 : ℚ))
        = (0, false)) ∧
    ((List.replicate 32 (0 : ℚ)).length = 16 * 2 ∧
      fingerGestureStep (fun _ => 7) 16 (List.replicate 32 (0 : ℚ))
        = (7, true)) :=
  ⟨⟨by simp, (trajectory_gating (fun _ => 7) (List.replicate 3 0)).1
      (by simp)⟩,
   ⟨by simp, (trajectory_gating (fun _ => 7) (List.replicate 32 0)).2
      (by simp)⟩⟩

/-- First occurrences of the values of a list, in encounter order,
excluding values already in `seen`: the key iteration order of a Python
dict built by inserting the list's values left to right. -/
def firstOccursFrom (seen : List Int) : List Int → List Int
  | [] => []
  | x :: t =>
    if x ∈ seen then firstOccursFrom seen t
    else x :: firstOccursFrom (x :: seen) t

/-- First occurrences of the values of a list, in encounter order. -/
def firstOccurs (h : List Int) : List Int := firstOccursFrom [] h

/-- `collections.Counter(h)`: an insertion-ordered mapping from each
distinct value of `h` — keys in first-encounter order — to its number of
occurrences in `h`. -/
def pyCounter (h : List Int) : List (Int × ℕ) :=
  (firstOccurs h).map (fun k => (k, h.count k))

/-- Stable insertion into a count-descending list: the element is placed
before the first entry whose count does not exceed its own, so that
earlier-inserted elements stay ahead of later ones with equal counts. -/
def descInsert (p : Int × ℕ) : List (Int × ℕ) → List (Int × ℕ)
  | [] => [p]
  | q :: t => if q.2 ≤ p.2 then p :: q :: t else q :: descInsert p t

/-- Stable sort by count, descending: the order produced by Python's
`sorted(items, key=itemgetter(1), reverse=True)` inside
`Counter.most_common`. -/
def descSort : List (Int × ℕ) → List (Int × ℕ)
  | [] => []
  | p :: t => descInsert p (descSort t)

/-- `Counter(h).most_common()` as used in `src/app.py` line 242:
the counter's items sorted stably by count, descending. -/
def most_common (h : List Int) : List (Int × ℕ) := descSort (pyCounter h)

/-- The effective trajectory label `most_common_fg_id[0][0]` read by
`src/app.py` (line 255): the value of the head of `most_common`. -/
def mostCommonHead (h : List Int) : Option Int :=
  (most_common h).head?.map Prod.fst

/-- Modelled from the spec for comparison with `mostCommonHead`: the first
value of the history, in encounter order, whose total count is maximal. -/
def firstMode (h : List Int) : Option Int :=
  h.find? (fun x => h.all (fun y => h.count y ≤ h.count x))

/-- The first element of the list whose count component is maximal. -/
def findMaxBySnd (l : List (Int × ℕ)) : Option (Int × ℕ) :=
  l.find? (fun p => l.all (fun q => q.2 ≤ p.2))

theorem length_descInsert (p : Int × ℕ) (l : List (Int × ℕ)) :
    (descInsert p l).length = l.length + 1 := by
  induction l with
  | nil => rfl
  | cons q t ih =>
    by_cases h : q.2 ≤ p.2 <;> simp [descInsert, h, ih]

theorem length_descSort (l : List (Int × ℕ)) :
    (descSort l).length = l.length := by
  induction l with
  | nil => rfl
  | cons p t ih => simp [descSort, length_descInsert, ih]

theorem find?_congr_on {α : Type} (p q : α → Bool) :
    ∀ l : List α, (∀ x ∈ l, p x = q x) → l.find? p = l.find? q := by
  intro l
  induction l with
  | nil => intro _; rfl
  | cons a t ih =>
    intro hpq
    have ha := hpq a (by simp)
    cases hp : p a with
    | true =>
      rw [List.find?_cons_of_pos _ hp, List.find?_cons_of_pos _ (ha ▸ hp)]
    | false =>
      rw [List.find?_cons_of_neg _ (by simp [hp]),
        List.find?_cons_of_neg _ (by simp [← ha, hp])]
      exact ih (fun x hx => hpq x (by simp [hx]))

theorem head?_descSort (l : List (Int × ℕ)) :
    (descSort l).head? = findMaxBySnd l := by
  induction l with
  | nil => rfl
  | cons p t ih =>
    cases hs : descSort t with
    | nil =>
      have ht : t = [] := by
        have hlen := length_descSort t
        rw [hs] at hlen
        exact List.length_eq_zero.mp hlen.symm
      subst ht
      simp [descSort, descInsert, findMaxBySnd]
    | cons q s =>
      rw [hs] at ih
      have hfind : t.find? (fun r => t.all (fun u => u.2 ≤ r.2)) = some q := by
        simpa [findMaxBySnd] using ih.symm
      have hqmem : q ∈ t := List.mem_of_find?_eq_some hfind
      have hqmax : ∀ u ∈ t, u.2 ≤ q.2 := by
        have hq := List.find?_some hfind
        simpa using hq
      by_cases h : q.2 ≤ p.2
      · have hpred : ((p :: t).all (fun u => u.2 ≤ p.2)) = true := by
          simp only [List.all_cons, Bool.and_eq_true, decide_eq_true_eq]
          refine ⟨le_refl _, ?_⟩
          simp only [List.all_eq_true, decide_eq_true_eq]
          exact fun u hu => le_trans (hqmax u hu) h
        have hLHS : (descSort (p :: t)).head? = some p := by
          show (descInsert p (descSort t)).head? = some p
          rw [hs]
          simp [descInsert, h]
        rw [hLHS, findMaxBySnd]
        exact (@List.find?_cons_of_pos (Int × ℕ)
          (fun r => (p :: t).all (fun u => decide (u.2 ≤ r.2))) p t hpred).symm
      · have hnotp : ¬ (((p :: t).all (fun u => u.2 ≤ p.2)) = true) := by
          simp only [List.all_eq_true, decide_eq_true_eq]
          intro hall
          exact h (hall q (by simp [hqmem]))
        have hcongr : ∀ r ∈ t, ((p :: t).all (fun u => u.2 ≤ r.2))
            = (t.all (fun u => u.2 ≤ r.2)) := by
          intro r hr
          cases hT : t.all (fun u => decide (u.2 ≤ r.2)) with
          | true =>
            have hqr : q.2 ≤ r.2 := by
              have := List.all_eq_true.mp hT q hqmem
              simpa using this
            have hpr : p.2 ≤ r.2 := le_trans (le_of_lt (not_le.mp h)) hqr
            simp [List.all_cons, hT, hpr]
          | false =>
            simp [List.all_cons, hT]
        have hLHS : (descSort (p :: t)).head? = some q := by
          show (descInsert p (descSort t)).head? = some q
          rw [hs]
          simp [descInsert, h]
        rw [hLHS, findMaxBySnd,
          @List.find?_cons_of_neg (Int × ℕ)
            (fun r => (p :: t).all (fun u => decide (u.2 ≤ r.2))) p t hnotp,
          find?_congr_on _ _ t hcongr, hfind]

theorem mem_firstOccursFrom :
    ∀ (t seen : List Int) (x : Int),
      x ∈ firstOccursFrom seen t ↔ x ∈ t ∧ x ∉ seen := by
  intro t
  induction t with
  | nil =>
    intro seen x
    simp [firstOccursFrom]
  | cons y t ih =>
    intro seen x
    by_cases hy : y ∈ seen
    · rw [firstOccursFrom, if_pos hy, ih]
      constructor
      · rintro ⟨hxt, hxs⟩
        exact ⟨by simp [hxt], hxs⟩
      · rintro ⟨hxyt, hxs⟩
        rcases List.mem_cons.mp hxyt with hxy | hxt
        · exact absurd (show x ∈ seen by rw [hxy]; exact hy) hxs
        · exact ⟨hxt, hxs⟩
    · rw [firstOccursFrom, if_neg hy]
      constructor
      · intro hmem
        rcases List.mem_cons.mp hmem with hxy | hxt
        · subst hxy
          exact ⟨by simp, hy⟩
        · have hx := (ih (y :: seen) x).mp hxt
          exact ⟨by simp [hx.1],
            fun hxs => hx.2 (List.mem_cons.mpr (Or.inr hxs))⟩
      · rintro ⟨hxyt, hxs⟩
        rcases List.mem_cons.mp hxyt with hxy | hxt
        · subst hxy
          simp
        · by_cases hxy2 : x = y
          · subst hxy2
            simp
          · refine List.mem_cons.mpr (Or.inr ?_)
            exact (ih (y :: seen) x).mpr ⟨hxt, by simp [hxy2, hxs]⟩

theorem find?_firstOccursFrom (p : Int → Bool) :
    ∀ (t seen : List Int), (∀ s ∈ seen, p s = false) →
      (firstOccursFrom seen t).find? p = t.find? p := by
  intro t
  induction t with
  | nil =>
    intro seen _
    rfl
  | cons x t ih =>
    intro seen hseen
    by_cases hx : x ∈ seen
    · have hpx : p x = false := hseen x hx
      rw [firstOccursFrom, if_pos hx, ih seen hseen,
        List.find?_cons_of_neg _ (by simp [hpx])]
    · rw [firstOccursFrom, if_neg hx]
      cases hpx : p x with
      | true =>
        rw [List.find?_cons_of_pos _ hpx, List.find?_cons_of_pos _ hpx]
      | false =>
        rw [List.find?_cons_of_neg _ (by simp [hpx]),
          List.find?_cons_of_neg _ (by simp [hpx])]
        refine ih (x :: seen) ?_
        intro u hu
        rcases List.mem_cons.mp hu with h1 | h1
        · rw [h1]
          exact hpx
        · exact hseen u h1

theorem bool_eq_of_iff {a b : Bool} (h : (a = true) ↔ (b = true)) :
    a = b := by
  cases a <;> cases b <;> simp_all

theorem mostCommonHead_eq_firstMode (h : List Int) :
    mostCommonHead h = firstMode h := by
  rw [mostCommonHead, most_common, head?_descSort, findMaxBySnd, pyCounter]
  have hmemFO : ∀ x : Int, x ∈ firstOccurs h ↔ x ∈ h := by
    intro x
    rw [firstOccurs, mem_firstOccursFrom]
    simp
  have hcongr : ∀ p ∈ (firstOccurs h).map (fun k => (k, h.count k)),
      (((firstOccurs h).map (fun k => (k, h.count k))).all
        (fun q => q.2 ≤ p.2))
      = (((firstOccurs h).map (fun k => (k, h.count k))).all
        (fun q => q.2 ≤ h.count p.1)) := by
    intro p hp
    rcases List.mem_map.mp hp with ⟨k, _, rfl⟩
    rfl
  rw [find?_congr_on _ _ _ hcongr, List.find?_map]
  have hQR : ∀ k : Int,
      ((((firstOccurs h).map (fun k => (k, h.count k))).all
        (fun q => q.2 ≤ h.count k)))
      = (h.all (fun y => h.count y ≤ h.count k)) := by
    intro k
    apply bool_eq_of_iff
    constructor
    · intro hall
      simp only [List.all_eq_true, decide_eq_true_eq] at hall ⊢
      intro y hy
      exact hall (y, h.count y)
        (List.mem_map.mpr ⟨y, (hmemFO y).mpr hy, rfl⟩)
    · intro hall
      simp only [List.all_eq_true, decide_eq_true_eq] at hall ⊢
      intro q hq
      rcases List.mem_map.mp hq with ⟨k2, hk2, rfl⟩
      exact hall k2 ((hmemFO k2).mp hk2)
  simp only [Option.map_map]
  change Option.map (fun k => k)
    (List.find?
      (fun k => (List.map (fun k => (k, List.count k h)) (firstOccurs h)).all
        fun q => decide (q.2 ≤ List.count k h))
      (firstOccurs h)) = firstMode h
  rw [find?_congr_on _ _ (firstOccurs h) (fun k _ => hQR k)]
  rw [firstOccurs, find?_firstOccursFrom _ h []
    (fun s hs => absurd hs (List.not_mem_nil s))]
  simp [firstMode]

/-- Claim C5: the effective trajectory label —
`Counter(finger_gesture_history).most_common()[0][0]` in `src/app.py` —
is the majority value (mode) of FingerGestureHistory, with ties broken
deterministically in favour of the value encountered first, in iteration
(insertion) order, among the values attaining the maximal count: the head
of `most_common` always equals the first value of the history whose total
count is maximal; in particular history `[0, 0, 1, 0, 2]` yields 0 and
`[1, 1, 2, 2, 0]` yields 1. -/
theorem majority_vote_first_max_insertion_order :
    (∀ h : List Int, mostCommonHead h = firstMode h) ∧
    mostCommonHead [0, 0, 1, 0, 2] = some 0 ∧
    mostCommonHead [1, 1, 2, 2, 0] = some 1 :=
  ⟨mostCommonHead_eq_firstMode, by decide, by decide⟩
